import Mathlib

/-!
Verification development for the daailogic-website repository.

Two components are embedded:

* the Google Apps Script webhook from `src/FORM_DOC.md` (`parseQueryString`,
  `normalizeValue`, `doPost`): request-body parsing, `_field_order` extraction,
  header/row assembly, spreadsheet persistence, notification email, response;
* the client form-submission handler from `src/script.js` (the
  `contactForm` submit listener): button state, fetch outcome handling,
  timed restoration.

JavaScript is modelled shallowly: JS values become the inductive `JSValue`,
JS objects become association lists with insertion-order keys, exceptions
become `Except`/`Option` results.  Deliberate simplifications, none of which
any claim below depends on, are noted where they occur (number formatting,
prototype-chain lookup, integer-like key enumeration order).
-/

namespace FormDoc

/-- Shallow model of a JavaScript value as it can occur in the webhook:
`null`, `undefined`, booleans, numbers, strings, arrays and plain objects.
Objects are association lists in insertion order.  JSON numbers keep their
source lexeme: JS double-to-string formatting is not reproduced and no claim
below depends on it. -/
inductive JSValue where
  | vNull : JSValue
  | vUndefined : JSValue
  | vBool (b : Bool) : JSValue
  | vNum (lexeme : String) : JSValue
  | vStr (s : String) : JSValue
  | vArr (elems : List JSValue) : JSValue
  | vObj (fields : List (String × JSValue)) : JSValue
deriving Repr, Inhabited

/-- A JS plain object: association list of fields in insertion order. -/
abbrev Obj := List (String × JSValue)

mutual

/-- JS `String(v)` conversion.  `String(array)` is the comma join of its
elements with `null`/`undefined` rendered empty, as `Array.prototype.join`
does. -/
def jsToString : JSValue → String
  | .vNull => "null"
  | .vUndefined => "undefined"
  | .vBool b => if b then "true" else "false"
  | .vNum lexeme => lexeme
  | .vStr s => s
  | .vObj _ => "[object Object]"
  | .vArr a => String.intercalate "," (jsElemStrings a)

/-- Element conversions used by `Array.prototype.join`: `null` and
`undefined` render empty, every other element via `String(v)`. -/
def jsElemStrings : List JSValue → List String
  | [] => []
  | .vNull :: rest => "" :: jsElemStrings rest
  | .vUndefined :: rest => "" :: jsElemStrings rest
  | v :: rest => jsToString v :: jsElemStrings rest

end

/-- The webhook's `normalizeValue`: `null`/`undefined` give the empty string,
arrays give `v.join(', ')`, anything else gives `String(v)`
(`src/FORM_DOC.md` lines 50-54). -/
def normalizeValue : JSValue → String
  | .vNull => ""
  | .vUndefined => ""
  | .vArr a => String.intercalate ", " (jsElemStrings a)
  | v => jsToString v

/-- Is every mantissa digit of a JSON number lexeme zero?  Captures JS
falsiness of `0`, `-0`, `0.0`, `0e9` and similar. -/
def jsonNumIsZero (lexeme : String) : Bool :=
  let cs := match lexeme.data with
    | '-' :: r => r
    | r => r
  let ipart := cs.takeWhile Char.isDigit
  let rest := cs.dropWhile Char.isDigit
  let fpart := match rest with
    | '.' :: r => r.takeWhile Char.isDigit
    | _ => []
  (ipart ++ fpart).all fun c => c = '0'

/-- JS truthiness of a value (`if (v)`). -/
def jsTruthy : JSValue → Bool
  | .vNull => false
  | .vUndefined => false
  | .vBool b => b
  | .vNum lexeme => !(jsonNumIsZero lexeme)
  | .vStr s => if s = "" then false else true
  | .vArr _ => true
  | .vObj _ => true

/-- First value stored under key `k`, or `vUndefined` when no entry carries
`k`; models `obj[k] === undefined` checks on plain objects. -/
def lookupVal : Obj → String → JSValue
  | [], _ => .vUndefined
  | p :: rest, k => if p.1 = k then p.2 else lookupVal rest k

/-- JS property assignment `obj[k] = v` on a plain object: overwrite in place
when the key exists, append otherwise.  The `__proto__` setter quirk of real
JS assignment is not modelled; no claim below involves that key. -/
def objSet : Obj → String → JSValue → Obj
  | [], k, v => [(k, v)]
  | p :: rest, k, v => if p.1 = k then (k, v) :: rest else p :: objSet rest k v

/-- JS `delete obj[k]`: drop the (unique) entry carrying `k`. -/
def objDelete : Obj → String → Obj
  | [], _ => []
  | p :: rest, k => if p.1 = k then rest else p :: objDelete rest k

/-- Is `k` the canonical decimal numeral of a natural number?  Those are the
keys under which JS strings and arrays expose their elements. -/
def canonIndex (k : String) : Option Nat :=
  match k.data with
  | [] => none
  | ['0'] => some 0
  | c :: rest =>
      if c.isDigit ∧ c ≠ '0' ∧ rest.all Char.isDigit then
        some ((c :: rest).foldl (fun acc d => 10 * acc + (d.toNat - 48)) 0)
      else none

/-- JS property read `v[k]`.  Objects look up own fields, strings and arrays
expose elements under canonical indices, other primitives have no own
properties.  Prototype-chain lookup (inherited methods such as `toString`)
is not modelled: the webhook only reads keys coming from the submission
itself.  Reads on `null`/`undefined` throw in JS; `doPost` below models that
throw at its only possible site. -/
def jsGet (v : JSValue) (k : String) : JSValue :=
  match v with
  | .vObj l => lookupVal l k
  | .vStr s =>
      match canonIndex k with
      | some i =>
          match s.data.get? i with
          | some c => .vStr (String.mk [c])
          | none => .vUndefined
      | none => .vUndefined
  | .vArr a =>
      match canonIndex k with
      | some i => (a.get? i).getD .vUndefined
      | none => .vUndefined
  | _ => .vUndefined

/-- JS `Object.keys(v)`.  Own enumerable keys of an object, element indices
of strings and arrays, nothing for other primitives.  Real JS enumerates
integer-like object keys first; only key membership, never object-key order,
is used by the theorems below. -/
def jsKeys : JSValue → List String
  | .vObj l => l.map Prod.fst
  | .vStr s => (List.range s.length).map Nat.repr
  | .vArr a => (List.range a.length).map Nat.repr
  | _ => []

/-- JS `delete v[k]` generalized to any value: only objects lose a field. -/
def jsDelete (v : JSValue) (k : String) : JSValue :=
  match v with
  | .vObj l => .vObj (objDelete l k)
  | w => w

/-! String utilities mirroring the JavaScript primitives used by the
webhook: `String.prototype.split` with a literal separator,
`String.prototype.trim`, the global `+`-to-space replacement, and
`decodeURIComponent`. -/

/-- When `sep` is a leading segment of `cs`, the remainder after it. -/
def dropSeq? : List Char → List Char → Option (List Char)
  | [], cs => some cs
  | _ :: _, [] => none
  | s :: ss, c :: cc => if c = s then dropSeq? ss cc else none

/-- Worker for `jsSplit`.  The fuel is only a structural-recursion device:
every step consumes at least one character, so `length + 1` fuel never runs
out. -/
def splitSeqAux (sep : List Char) : Nat → List Char → List Char → List (List Char)
  | 0, cs, cur => [cur.reverse ++ cs]
  | fuel+1, cs, cur =>
      match dropSeq? sep cs with
      | some rest => cur.reverse :: splitSeqAux sep fuel rest []
      | none =>
          match cs with
          | [] => [cur.reverse]
          | c :: cc => splitSeqAux sep fuel cc (c :: cur)

/-- JS `s.split(sep)` for a non-empty literal separator: scan left to right,
keeping empty pieces; `"".split(sep)` is `[""]`. -/
def jsSplit (s : String) (sep : String) : List String :=
  (splitSeqAux sep.data (s.data.length + 1) s.data []).map fun cs => String.mk cs

/-- The JS whitespace set recognized by `String.prototype.trim`:
WhiteSpace, LineTerminator and the Unicode space separators. -/
def isJsSpace (c : Char) : Bool :=
  let n := c.toNat
  decide (n = 0x9 ∨ n = 0xA ∨ n = 0xB ∨ n = 0xC ∨ n = 0xD ∨ n = 0x20 ∨
    n = 0xA0 ∨ n = 0x1680 ∨ (0x2000 ≤ n ∧ n ≤ 0x200A) ∨ n = 0x2028 ∨
    n = 0x2029 ∨ n = 0x202F ∨ n = 0x205F ∨ n = 0x3000 ∨ n = 0xFEFF)

/-- JS `s.trim()`. -/
def jsTrim (s : String) : String :=
  String.mk (((s.data.dropWhile isJsSpace).reverse.dropWhile isJsSpace).reverse)

/-- JS `s.replace(/\+/g, ' ')`: every plus becomes a space. -/
def plusToSpace (s : String) : String :=
  String.mk (s.data.map fun c => if c = '+' then ' ' else c)

/-- Value of one hexadecimal digit, either case. -/
def hexVal (c : Char) : Option Nat :=
  if c.isDigit then some (c.toNat - 48)
  else if 'a' ≤ c ∧ c ≤ 'f' then some (c.toNat - 87)
  else if 'A' ≤ c ∧ c ≤ 'F' then some (c.toNat - 55)
  else none

/-- Byte denoted by two hexadecimal digits. -/
def hex2 (h1 h2 : Char) : Option Nat := do
  let a ← hexVal h1
  let b ← hexVal h2
  pure (16 * a + b)

/-- A percent-escaped UTF-8 continuation byte constrained to `[lo, hi]`. -/
def contByte (h1 h2 : Char) (lo hi : Nat) : Option Nat := do
  let b ← hex2 h1 h2
  if lo ≤ b ∧ b ≤ hi then pure b else none

/-- Core of `decodeURIComponent`: percent escapes are decoded as UTF-8 byte
sequences (with the standard overlong/surrogate exclusions), unescaped
characters pass through, and any malformed escape yields `none`, modelling
the thrown `URIError`. -/
def percentDecode : List Char → Option (List Char)
  | [] => some []
  | '%' :: h1 :: h2 :: rest =>
      (match hex2 h1 h2 with
      | none => none
      | some b =>
        if b < 0x80 then
          (percentDecode rest).map fun tail => Char.ofNat b :: tail
        else if b < 0xC2 then none
        else if b ≤ 0xDF then
          match rest with
          | '%' :: h3 :: h4 :: rest2 =>
              (match contByte h3 h4 0x80 0xBF with
              | some b2 => (percentDecode rest2).map fun tail =>
                  Char.ofNat ((b - 0xC0) * 0x40 + (b2 - 0x80)) :: tail
              | none => none)
          | _ => none
        else if b ≤ 0xEF then
          match rest with
          | '%' :: h3 :: h4 :: '%' :: h5 :: h6 :: rest2 =>
              (match contByte h3 h4 (if b = 0xE0 then 0xA0 else 0x80)
                      (if b = 0xED then 0x9F else 0xBF),
                     contByte h5 h6 0x80 0xBF with
              | some b2, some b3 => (percentDecode rest2).map fun tail =>
                  Char.ofNat ((b - 0xE0) * 0x1000 + (b2 - 0x80) * 0x40 + (b3 - 0x80)) :: tail
              | _, _ => none)
          | _ => none
        else if b ≤ 0xF4 then
          match rest with
          | '%' :: h3 :: h4 :: '%' :: h5 :: h6 :: '%' :: h7 :: h8 :: rest2 =>
              (match contByte h3 h4 (if b = 0xF0 then 0x90 else 0x80)
                      (if b = 0xF4 then 0x8F else 0xBF),
                     contByte h5 h6 0x80 0xBF, contByte h7 h8 0x80 0xBF with
              | some b2, some b3, some b4 => (percentDecode rest2).map fun tail =>
                  Char.ofNat ((b - 0xF0) * 0x40000 + (b2 - 0x80) * 0x1000 +
                    (b3 - 0x80) * 0x40 + (b4 - 0x80)) :: tail
              | _, _, _ => none)
          | _ => none
        else none)
  | '%' :: _ => none
  | c :: rest => (percentDecode rest).map fun tail => c :: tail

/-- JS `decodeURIComponent(s)`; `none` models the thrown `URIError`. -/
def decodeURIComponent (s : String) : Option String :=
  (percentDecode s.data).map fun cs => String.mk cs

/-! The webhook's `parseQueryString` (`src/FORM_DOC.md` lines 36-48). -/

/-- One step of `parseQueryString`'s accumulation: first occurrence of a key
stores the string, a second turns it into a two-element array, further ones
push onto the array — exactly the `obj[k] === undefined` / `Array.isArray`
cascade of the source. -/
def pqsInsert (obj : Obj) (k v : String) : Obj :=
  match lookupVal obj k with
  | .vUndefined => obj ++ [(k, .vStr v)]
  | .vArr a => objSet obj k (.vArr (a ++ [.vStr v]))
  | old => objSet obj k (.vArr [old, .vStr v])

/-- The body of `parseQueryString`'s `forEach` on one `&`-split piece: an
empty piece is skipped (`some none`), otherwise the piece is split on `=`,
the first part is the raw key and the rest re-joined with `=` is the raw
value, and both go through `+`-to-space then `decodeURIComponent`; a decode
failure (`none`) is the propagating `URIError`. -/
def decodePair (pair : String) : Option (Option (String × String)) :=
  if pair = "" then some none
  else
    match jsSplit pair "=" with
    | [] => some none
    | kraw :: vparts =>
      match decodeURIComponent (plusToSpace kraw) with
      | none => none
      | some k =>
        match decodeURIComponent (plusToSpace (String.intercalate "=" vparts)) with
        | none => none
        | some v => some (some (k, v))

/-- The `forEach` loop of `parseQueryString` over the `&`-split pieces,
inserting each decoded pair into the accumulated object. -/
def parseQSAux : Obj → List String → Option Obj
  | obj, [] => some obj
  | obj, pair :: rest =>
      match decodePair pair with
      | none => none
      | some none => parseQSAux obj rest
      | some (some (k, v)) => parseQSAux (pqsInsert obj k v) rest

/-- The webhook's `parseQueryString(qs)`. -/
def parseQueryString (qs : String) : Option Obj :=
  parseQSAux [] (jsSplit qs "&")

/-- The decoded key/value pairs of a query string in occurrence order,
before any accumulation; used to state what `parseQueryString` accumulates. -/
def qsPairsAux : List (String × String) → List String → Option (List (String × String))
  | acc, [] => some acc
  | acc, pair :: rest =>
      match decodePair pair with
      | none => none
      | some none => qsPairsAux acc rest
      | some (some (k, v)) => qsPairsAux (acc ++ [(k, v)]) rest

/-- Decoded pair list of a whole query string. -/
def qsPairs (qs : String) : Option (List (String × String)) :=
  qsPairsAux [] (jsSplit qs "&")

/-! A JSON parser modelling `JSON.parse`: the JSON whitespace set, the
string/number/literal grammar, arrays, and objects with later duplicate keys
overwriting earlier ones in place.  Numbers keep their source lexeme (see
`JSValue.vNum`). -/

/-- Skip JSON whitespace (space, tab, newline, carriage return). -/
def jsonSkipWs : List Char → List Char
  | c :: rest =>
      if c = ' ' ∨ c = '\t' ∨ c = '\n' ∨ c = '\r' then jsonSkipWs rest
      else c :: rest
  | [] => []

/-- Code point of a four-digit hexadecimal escape. -/
def hex4 (a b c d : Char) : Option Nat := do
  let x ← hexVal a
  let y ← hexVal b
  let z ← hexVal c
  let w ← hexVal d
  pure (0x1000 * x + 0x100 * y + 0x10 * z + w)

/-- Body of a JSON string after the opening quote: plain characters, the
eight simple escapes, and `\uXXXX` escapes with surrogate-pair combination.
A lone surrogate (representable in a JS string but not in a Lean one)
becomes U+FFFD; no claim involves one.  Unescaped control characters are
rejected. -/
def jsonStringAux (fuel : Nat) : List Char → List Char → Option (String × List Char) :=
  match fuel with
  | 0 => fun _ _ => none
  | fuel+1 => fun acc cs =>
    match acc, cs with
  | acc, '"' :: rest => some (String.mk acc.reverse, rest)
  | acc, '\\' :: e :: rest =>
      (match e with
      | '"' => jsonStringAux fuel ('"' :: acc) rest
      | '\\' => jsonStringAux fuel ('\\' :: acc) rest
      | '/' => jsonStringAux fuel ('/' :: acc) rest
      | 'b' => jsonStringAux fuel ('\x08' :: acc) rest
      | 'f' => jsonStringAux fuel ('\x0c' :: acc) rest
      | 'n' => jsonStringAux fuel ('\n' :: acc) rest
      | 'r' => jsonStringAux fuel ('\r' :: acc) rest
      | 't' => jsonStringAux fuel ('\t' :: acc) rest
      | 'u' =>
        (match rest with
        | h1 :: h2 :: h3 :: h4 :: rest2 =>
          (match hex4 h1 h2 h3 h4 with
          | none => none
          | some code =>
            if 0xD800 ≤ code ∧ code ≤ 0xDBFF then
              match rest2 with
              | '\\' :: 'u' :: g1 :: g2 :: g3 :: g4 :: rest3 =>
                  (match hex4 g1 g2 g3 g4 with
                  | some code2 =>
                    if 0xDC00 ≤ code2 ∧ code2 ≤ 0xDFFF then
                      jsonStringAux fuel
                        (Char.ofNat (0x10000 + (code - 0xD800) * 0x400 + (code2 - 0xDC00)) :: acc)
                        rest3
                    else jsonStringAux fuel ('�' :: acc) rest2
                  | none => none)
              | _ => jsonStringAux fuel ('�' :: acc) rest2
            else if 0xDC00 ≤ code ∧ code ≤ 0xDFFF then
              jsonStringAux fuel ('�' :: acc) rest2
            else jsonStringAux fuel (Char.ofNat code :: acc) rest2)
        | _ => none)
      | _ => none)
  | acc, c :: rest =>
      if c.toNat < 0x20 then none else jsonStringAux fuel (c :: acc) rest
  | _, [] => none

/-- Optional exponent part of a JSON number, appended to the lexeme. -/
def jsonExpPart (lex : List Char) (cs : List Char) : Option (List Char × List Char) :=
  match cs with
  | e :: r =>
      if e = 'e' ∨ e = 'E' then
        let (sgn, r1) := match r with
          | '+' :: rr => (['+'], rr)
          | '-' :: rr => (['-'], rr)
          | rr => (([] : List Char), rr)
        let ds := r1.takeWhile Char.isDigit
        if ds = [] then none
        else some (lex ++ e :: (sgn ++ ds), r1.dropWhile Char.isDigit)
      else some (lex, cs)
  | [] => some (lex, [])

/-- Optional fraction part of a JSON number, appended to the lexeme. -/
def jsonFracPart (lex : List Char) (cs : List Char) : Option (List Char × List Char) :=
  match cs with
  | '.' :: r =>
      let ds := r.takeWhile Char.isDigit
      if ds = [] then none
      else some (lex ++ '.' :: ds, r.dropWhile Char.isDigit)
  | _ => some (lex, cs)

/-- Fraction and exponent after the integer part of a JSON number. -/
def jsonNumberTail (lex : List Char) (cs : List Char) : Option (String × List Char) :=
  match jsonFracPart lex cs with
  | none => none
  | some (lex1, cs1) =>
    match jsonExpPart lex1 cs1 with
    | none => none
    | some (lex2, cs2) => some (String.mk lex2, cs2)

/-- Integer part of a JSON number (`0`, or a nonzero digit followed by
digits), given an already-consumed sign. -/
def jsonNumberInt (sign : List Char) (cs : List Char) : Option (String × List Char) :=
  match cs with
  | '0' :: r => jsonNumberTail (sign ++ ['0']) r
  | c :: r =>
      if c.isDigit then
        jsonNumberTail (sign ++ c :: r.takeWhile Char.isDigit) (r.dropWhile Char.isDigit)
      else none
  | [] => none

/-- Lexeme of a JSON number at the head of the input. -/
def jsonNumberLex (cs : List Char) : Option (String × List Char) :=
  match cs with
  | '-' :: r => jsonNumberInt ['-'] r
  | r => jsonNumberInt [] r

mutual

/-- One JSON value at the head of the input.  The fuel is a structural
device; `jsonParse` supplies enough for any input of its length. -/
def jsonValue : Nat → List Char → Option (JSValue × List Char)
  | 0, _ => none
  | fuel+1, cs =>
      match jsonSkipWs cs with
      | 'n' :: 'u' :: 'l' :: 'l' :: rest => some (.vNull, rest)
      | 't' :: 'r' :: 'u' :: 'e' :: rest => some (.vBool true, rest)
      | 'f' :: 'a' :: 'l' :: 's' :: 'e' :: rest => some (.vBool false, rest)
      | '"' :: rest => (jsonStringAux (rest.length + 1) [] rest).map fun p => (.vStr p.1, p.2)
      | '[' :: rest =>
          (match jsonSkipWs rest with
          | ']' :: rest2 => some (.vArr [], rest2)
          | _ => jsonArrItems fuel [] rest)
      | '\x7b' :: rest =>
          (match jsonSkipWs rest with
          | '\x7d' :: rest2 => some (.vObj [], rest2)
          | _ => jsonObjItems fuel [] rest)
      | cs2 => (jsonNumberLex cs2).map fun p => (.vNum p.1, p.2)

/-- Comma-separated array elements up to the closing bracket. -/
def jsonArrItems : Nat → List JSValue → List Char → Option (JSValue × List Char)
  | 0, _, _ => none
  | fuel+1, acc, cs =>
      match jsonValue fuel cs with
      | none => none
      | some (v, rest) =>
        match jsonSkipWs rest with
        | ',' :: rest2 => jsonArrItems fuel (acc ++ [v]) rest2
        | ']' :: rest2 => some (.vArr (acc ++ [v]), rest2)
        | _ => none

/-- Comma-separated object members up to the closing brace; a repeated key
overwrites the earlier value in place, as `JSON.parse` does. -/
def jsonObjItems : Nat → Obj → List Char → Option (JSValue × List Char)
  | 0, _, _ => none
  | fuel+1, acc, cs =>
      match jsonSkipWs cs with
      | '"' :: rest =>
          (match jsonStringAux (rest.length + 1) [] rest with
          | none => none
          | some (k, rest2) =>
            match jsonSkipWs rest2 with
            | ':' :: rest3 =>
                (match jsonValue fuel rest3 with
                | none => none
                | some (v, rest4) =>
                  match jsonSkipWs rest4 with
                  | ',' :: rest5 => jsonObjItems fuel (objSet acc k v) rest5
                  | '\x7d' :: rest5 => some (.vObj (objSet acc k v), rest5)
                  | _ => none)
            | _ => none)
      | _ => none

end

/-- `JSON.parse(s)`: one value, then only whitespace; `none` models the
thrown `SyntaxError`. -/
def jsonParse (s : String) : Option JSValue :=
  match jsonValue (2 * s.length + 8) s.data with
  | some (v, rest) => if jsonSkipWs rest = [] then some v else none
  | none => none

/-! The `doPost` webhook (`src/FORM_DOC.md` lines 56-106). -/

/-- The `e.postData` object of an Apps Script request: content type and raw
body.  `none`/empty model absent or falsy fields. -/
structure PostData where
  type : Option String
  contents : Option String
deriving Repr

/-- An incoming Apps Script request event: optional `postData` and optional
pre-parsed `e.parameter` mapping. -/
structure Request where
  postData : Option PostData
  parameter : Option (List (String × JSValue))
deriving Repr

/-- The guard `e.postData && e.postData.type &&
e.postData.type.indexOf('application/json') === 0`. -/
def contentTypeIsJson (e : Request) : Bool :=
  match e.postData with
  | some pd =>
      match pd.type with
      | some t => (dropSeq? "application/json".data t.data).isSome
      | none => false
  | none => false

/-- The raw `e.postData.contents`, empty when absent. -/
def rawContents (e : Request) : String :=
  match e.postData with
  | some pd => pd.contents.getD ""
  | none => ""

/-- `Array.isArray(val) ? val[0] : val` from the `e.parameter` copy loop:
of a multi-valued field only the first value is kept (`undefined` for an
empty array, as `val[0]` is). -/
def firstIfArray : JSValue → JSValue
  | .vArr a => (a.get? 0).getD .vUndefined
  | v => v

/-- The `for (let k in e.parameter)` copy loop building `data` from the
pre-parsed parameters. -/
def paramData (l : List (String × JSValue)) : Obj :=
  l.foldl (fun o p => objSet o p.1 (firstIfArray p.2)) []

/-- Branch (c) of `doPost` step 1: manual decoding of the raw body, where a
`URIError` from `decodeURIComponent` escapes to the top-level catch. -/
def rawBodyData (e : Request) : Except String JSValue :=
  match e.postData with
  | some pd =>
      match pd.contents with
      | some c =>
          if c = "" then .ok (.vObj [])
          else
            match parseQueryString c with
            | some obj => .ok (.vObj obj)
            | none => .error "URI malformed"
      | none => .ok (.vObj [])
  | none => .ok (.vObj [])

/-- Step 1 of `doPost`: build the flat `data` mapping, trying (a) a JSON
body when the content type says so (a failed parse degrades to the empty
object), else (b) non-empty pre-parsed parameters, else (c) the manually
decoded raw body. -/
def buildData (e : Request) : Except String JSValue :=
  if contentTypeIsJson e then
    let body := if rawContents e = "" then "\x7b\x7d" else rawContents e
    match jsonParse body with
    | some v => .ok v
    | none => .ok (.vObj [])
  else
    match e.parameter with
    | some l =>
        match l with
        | [] => rawBodyData e
        | _ :: _ => .ok (.vObj (paramData l))
    | none => rawBodyData e

/-- Step 2's label-list parsing:
`String(v).split('|||').map(s => s.trim()).filter(Boolean)`. -/
def parseFieldOrder (s : String) : List String :=
  ((jsSplit s "|||").map jsTrim).filter fun t => t ≠ ""

/-- Step 2 of `doPost`: when `data._field_order` is truthy, take the parsed
label list and delete the helper field; otherwise fall back to
`Object.keys(data)`. -/
def extractFieldOrder (data : JSValue) : List String × JSValue :=
  let fo := jsGet data "_field_order"
  if jsTruthy fo then (parseFieldOrder (jsToString fo), jsDelete data "_field_order")
  else (jsKeys data, data)

/-- Step 3, header row: `['Timestamp', ...fieldOrder]`. -/
def buildHeader (fieldOrder : List String) : List String :=
  "Timestamp" :: fieldOrder

/-- Step 3, data row: the timestamp followed by each ordered label's
normalized value read from `data`. -/
def buildRow (now : String) (data : JSValue) (fieldOrder : List String) : List String :=
  now :: fieldOrder.map fun k => normalizeValue (jsGet data k)

/-- Steps 2-3 combined on an already-built `data` value. -/
def recordOf (data : JSValue) (now : String) : List String × List String :=
  let fo := extractFieldOrder data
  (buildHeader fo.1, buildRow now fo.2 fo.1)

/-- Message of the `TypeError` thrown when step 2 reads `_field_order` off a
`null` or `undefined` `data` (a JSON body `null` reaches this); the exact
V8 wording is irrelevant to every claim. -/
def nullReadMsg : String := "Cannot read properties of null or undefined"

/-- Steps 1-3 of `doPost`: the computed header and row, or the message of
the exception those steps threw. -/
def computeRecord (e : Request) (now : String) : Except String (List String × List String) :=
  match buildData e with
  | .error m => .error m
  | .ok data0 =>
    match data0 with
    | .vNull => .error nullReadMsg
    | .vUndefined => .error nullReadMsg
    | data0 => .ok (recordOf data0 now)

/-- The tabular store: its column count and its content rows, row 1 being
the header position.  `getLastColumn`, `insertColumnsAfter`,
`getRange(1,1,1,n).setValues` and `appendRow` are modelled through the
interface the spec gives this external collaborator. -/
structure Sheet where
  numCols : Nat
  rows : List (List String)
deriving Repr

/-- `getRange(1, 1, 1, headers.length).setValues([headers])`: writes exactly
the first `headers.length` cells of row 1; any further cells of an existing
row 1 are untouched.  On an empty sheet this materializes row 1. -/
def setRow1 (rows : List (List String)) (headers : List String) : List (List String) :=
  match rows with
  | [] => [headers]
  | r0 :: rest => (headers ++ r0.drop headers.length) :: rest

/-- Steps 4-5 of `doPost`: extend the columns when there are fewer than the
header needs (`insertColumnsAfter(lastCol || 1, headers.length - lastCol)`),
overwrite the leading cells of row 1 with the header, append the row. -/
def persistSheet (s : Sheet) (headers row : List String) : Sheet :=
  let s1 := if s.numCols < headers.length then
    { s with numCols := s.numCols + (headers.length - s.numCols) } else s
  { s1 with rows := setRow1 s1.rows headers ++ [row] }

/-- Step 6's message body: `headers.map((h, i) => h + ':\n' + (row[i] || ''))`
joined with blank lines. -/
def emailBody (headers row : List String) : String :=
  String.intercalate "\n\n"
    ((headers.enum).map fun p => p.2 ++ ":\n" ++ row.getD p.1 "")

/-- A notification email handed to the `MailApp` sink; `recipient` models
the `to` field of `MailApp.sendEmail`. -/
structure EmailMsg where
  recipient : String
  subject : String
  body : String
deriving Repr

/-- The JSON status object returned by `doPost`. -/
inductive Resp where
  | success : Resp
  | error (message : String) : Resp
deriving Repr, DecidableEq

/-- Deployment configuration and external-collaborator behavior for one
request: the configured sheet and recipient, the timestamp the run observes,
and fault injection for the two external calls — `some m` makes
`SpreadsheetApp.openById` (resp. `MailApp.sendEmail`) throw with message
`m`, modelling persistence and notification failures. -/
structure Env where
  sheet : Sheet
  emailTo : String
  now : String
  sheetOpenFail : Option String
  mailFail : Option String
deriving Repr

/-- Everything one `doPost` invocation produces: the response, the resulting
sheet, and the email handed to the sink (if reached). -/
structure SubmitOutcome where
  resp : Resp
  sheet : Sheet
  email : Option EmailMsg
deriving Repr

/-- The whole `doPost` handler: steps 1-6 inside the `try`, with any thrown
exception converted by the `catch` into an error-status response carrying
the exception's message.  A failure before a side effect leaves the sheet
untouched; a notification failure happens after the sheet writes. -/
def doPost (env : Env) (e : Request) : SubmitOutcome :=
  match computeRecord e env.now with
  | .error m => ⟨.error m, env.sheet, none⟩
  | .ok hr =>
    match env.sheetOpenFail with
    | some m => ⟨.error m, env.sheet, none⟩
    | none =>
      let sheet1 := persistSheet env.sheet hr.1 hr.2
      match env.mailFail with
      | some m => ⟨.error m, sheet1, none⟩
      | none =>
          ⟨.success, sheet1,
            some ⟨env.emailTo, "New Ideal Avatar Submission", emailBody hr.1 hr.2⟩⟩

/-! The client form handler (`src/script.js` lines 32-81). -/

/-- Outcome of the `fetch` POST as the handler distinguishes it:
`response.ok`, an HTTP non-success status, or a rejected promise. -/
inductive FetchOutcome where
  | ok : FetchOutcome
  | httpError : FetchOutcome
  | netError : FetchOutcome
deriving Repr, DecidableEq

/-- Observable client state touched by the submit handler: the submit
button's label and disabled flag, whether `contactForm.reset()` has run,
the success indicator's visibility, and the alerts shown so far. -/
structure ClientState where
  btnText : String
  btnDisabled : Bool
  formWasReset : Bool
  successVisible : Bool
  alerts : List String
deriving Repr, DecidableEq

/-- A callback scheduled with `setTimeout`, with the button label captured
at handler entry. -/
inductive TimerAction where
  | restoreSuccess (originalText : String) : TimerAction
  | restoreError (originalText : String) : TimerAction
deriving Repr, DecidableEq

/-- A pending `setTimeout`: delay in milliseconds plus its callback. -/
structure TimerEvent where
  delayMs : Nat
  action : TimerAction
deriving Repr, DecidableEq

/-- The message passed to `alert` on the failure path. -/
def alertMsg : String :=
  "Something went wrong. Please try again later or email us directly."

/-- Firing a scheduled callback: both restore the original label and
re-enable the button; the success one also hides the success indicator. -/
def applyTimer (t : TimerEvent) (st : ClientState) : ClientState :=
  match t.action with
  | .restoreSuccess orig =>
      { st with btnText := orig, btnDisabled := false, successVisible := false }
  | .restoreError orig => { st with btnText := orig, btnDisabled := false }

/-- The shared `catch` block: error label, a 3000 ms restore timer, and the
blocking alert. -/
def catchPath (originalText : String) (st : ClientState) : ClientState × List TimerEvent :=
  ({ st with btnText := "Error", alerts := st.alerts ++ [alertMsg] },
   [⟨3000, .restoreError originalText⟩])

/-- The submit handler after `preventDefault`: label to `Sending...`,
disable the button, then act on the fetch outcome.  On `response.ok` the
form is reset, then the success indicator is shown — when that element is
absent (`hasSuccessEl = false`) the `classList` access on `null` throws and
control passes to the `catch` block; otherwise a 4000 ms restore timer is
scheduled.  On an HTTP error the handler itself throws; on a network error
the promise rejects; both land in `catch`. -/
def submitHandler (hasSuccessEl : Bool) (outcome : FetchOutcome)
    (st : ClientState) : ClientState × List TimerEvent :=
  let originalText := st.btnText
  let st := { st with btnText := "Sending...", btnDisabled := true }
  match outcome with
  | .ok =>
      let st := { st with btnText := "Message Sent" }
      let st := { st with formWasReset := true }
      if hasSuccessEl then
        let st := { st with successVisible := true }
        (st, [⟨4000, .restoreSuccess originalText⟩])
      else catchPath originalText st
  | .httpError => catchPath originalText st
  | .netError => catchPath originalText st

/-! Auxiliary notions used only to state and prove properties. -/

/-- No field of the object stores the value `undefined`.  Every object
`parseQueryString` builds satisfies this; it lets `obj[k] === undefined`
mean exactly "the key is absent". -/
def noUndefVals (obj : Obj) : Prop := ∀ p ∈ obj, p.2 ≠ JSValue.vUndefined

/-- The value `parseQueryString` accumulates for a key holding the given
occurrence-ordered list of decoded values: absent for none, the bare string
for one, the array of all of them for several. -/
def encodeVals : List String → JSValue
  | [] => .vUndefined
  | [v] => .vStr v
  | vs => .vArr (vs.map .vStr)

/-- Top-level keys of an object value are pairwise distinct — true of every
JS object, stated explicitly because `Obj` association lists can repeat
keys. -/
def dataKeysNodup : JSValue → Prop
  | .vObj l => (l.map Prod.fst).Nodup
  | _ => True

/-! Lemmas about object lookup, update and deletion. -/

theorem lookupVal_eq_vUndefined_of_not_mem {l : Obj} {k : String}
    (h : k ∉ l.map Prod.fst) : lookupVal l k = .vUndefined := by
  induction l with
  | nil => rfl
  | cons p rest ih =>
      simp only [List.map_cons, List.mem_cons, not_or] at h
      have hp : p.1 ≠ k := Ne.symm h.1
      simp only [lookupVal, if_neg hp]
      exact ih h.2

theorem mem_objSet {l : Obj} {k : String} {v : JSValue} {p : String × JSValue}
    (h : p ∈ objSet l k v) : p = (k, v) ∨ p ∈ l := by
  induction l with
  | nil => simpa [objSet] using h
  | cons q rest ih =>
      by_cases hq : q.1 = k
      · simp only [objSet, if_pos hq, List.mem_cons] at h
        rcases h with h | h
        · exact Or.inl h
        · exact Or.inr (List.mem_cons_of_mem _ h)
      · simp only [objSet, if_neg hq, List.mem_cons] at h
        rcases h with h | h
        · exact Or.inr (h ▸ List.mem_cons_self _ _)
        · rcases ih h with h | h
          · exact Or.inl h
          · exact Or.inr (List.mem_cons_of_mem _ h)

theorem lookupVal_objSet_self (l : Obj) (k : String) (v : JSValue) :
    lookupVal (objSet l k v) k = v := by
  induction l with
  | nil => simp [objSet, lookupVal]
  | cons q rest ih =>
      by_cases hq : q.1 = k
      · simp [objSet, lookupVal, hq]
      · simp [objSet, lookupVal, hq, ih]

theorem lookupVal_objSet_other {k k' : String} (h : k' ≠ k) (l : Obj) (v : JSValue) :
    lookupVal (objSet l k v) k' = lookupVal l k' := by
  have hkk : k ≠ k' := Ne.symm h
  induction l with
  | nil => simp [objSet, lookupVal, hkk]
  | cons q rest ih =>
      by_cases hq : q.1 = k
      · have hq' : q.1 ≠ k' := hq ▸ hkk
        simp [objSet, lookupVal, hq, hkk, hq']
      · simp only [objSet, if_neg hq, lookupVal]
        by_cases hq' : q.1 = k'
        · simp [hq']
        · simp [hq', ih]

theorem lookupVal_append_of_undef {l : Obj} {k : String}
    (hW : noUndefVals l) (hU : lookupVal l k = .vUndefined) (l2 : Obj) :
    lookupVal (l ++ l2) k = lookupVal l2 k := by
  induction l with
  | nil => rfl
  | cons p rest ih =>
      by_cases hp : p.1 = k
      · exact absurd (by simpa [lookupVal, hp] using hU)
          (hW p (List.mem_cons_self _ _))
      · simp only [lookupVal, if_neg hp] at hU
        simpa [lookupVal, hp] using ih (fun q hq => hW q (List.mem_cons_of_mem _ hq)) hU

theorem lookupVal_append_single_other {k k' : String} (h : k' ≠ k)
    (l : Obj) (w : JSValue) : lookupVal (l ++ [(k, w)]) k' = lookupVal l k' := by
  have hkk : k ≠ k' := Ne.symm h
  induction l with
  | nil => simp [lookupVal, hkk]
  | cons p rest ih =>
      by_cases hp : p.1 = k'
      · simp [lookupVal, hp]
      · simp [lookupVal, hp, ih]

theorem lookupVal_objDelete_self {l : Obj} {k : String}
    (hnd : (l.map Prod.fst).Nodup) : lookupVal (objDelete l k) k = .vUndefined := by
  induction l with
  | nil => rfl
  | cons p rest ih =>
      rw [List.map_cons, List.nodup_cons] at hnd
      rcases hnd with ⟨hp, hrest⟩
      by_cases hq : p.1 = k
      · simp only [objDelete, if_pos hq]
        exact lookupVal_eq_vUndefined_of_not_mem (hq ▸ hp)
      · simpa [objDelete, lookupVal, hq] using ih hrest

/-! Lemmas about `parseQueryString`'s accumulation. -/

theorem noUndefVals_pqsInsert {obj : Obj} (hW : noUndefVals obj)
    (k v : String) : noUndefVals (pqsInsert obj k v) := by
  unfold pqsInsert
  split
  · intro p hp
    rcases List.mem_append.mp hp with hp | hp
    · exact hW p hp
    · simp only [List.mem_singleton] at hp
      simp [hp]
  · intro p hp
    rcases mem_objSet hp with hp | hp
    · simp [hp]
    · exact hW p hp
  · intro p hp
    rcases mem_objSet hp with hp | hp
    · simp [hp]
    · exact hW p hp

theorem pqsInsert_lookup_self {obj : Obj} {k : String} (hW : noUndefVals obj)
    (vs : List String) (hv : lookupVal obj k = encodeVals vs) (v : String) :
    lookupVal (pqsInsert obj k v) k = encodeVals (vs ++ [v]) := by
  match vs with
  | [] =>
      have hU : lookupVal obj k = .vUndefined := hv
      unfold pqsInsert
      rw [hU]
      rw [lookupVal_append_of_undef hW hU]
      simp [lookupVal, encodeVals]
  | [w] =>
      have hS : lookupVal obj k = .vStr w := hv
      unfold pqsInsert
      rw [hS]
      rw [lookupVal_objSet_self]
      rfl
  | w1 :: w2 :: ws =>
      have hA : lookupVal obj k = .vArr ((w1 :: w2 :: ws).map .vStr) := hv
      unfold pqsInsert
      rw [hA]
      rw [lookupVal_objSet_self]
      simp [encodeVals]

theorem pqsInsert_lookup_other {obj : Obj} {k k' : String} (h : k' ≠ k) (v : String) :
    lookupVal (pqsInsert obj k v) k' = lookupVal obj k' := by
  unfold pqsInsert
  split
  · exact lookupVal_append_single_other h obj _
  · exact lookupVal_objSet_other h obj _
  · exact lookupVal_objSet_other h obj _

theorem foldl_pqsInsert_lookup (ps : List (String × String)) :
    ∀ (obj : Obj) (g : String → List String), noUndefVals obj →
      (∀ k, lookupVal obj k = encodeVals (g k)) →
      ∀ k, lookupVal (ps.foldl (fun o p => pqsInsert o p.1 p.2) obj) k
        = encodeVals (g k ++ (ps.filter fun p => p.1 == k).map Prod.snd) := by
  induction ps with
  | nil => intro obj g _ hg k; simpa using hg k
  | cons p ps ih =>
      intro obj g hW hg k
      simp only [List.foldl_cons]
      have hW' := noUndefVals_pqsInsert hW p.1 p.2
      have hg' : ∀ k', lookupVal (pqsInsert obj p.1 p.2) k'
          = encodeVals (if k' = p.1 then g k' ++ [p.2] else g k') := by
        intro k'
        by_cases hk : k' = p.1
        · subst hk
          rw [if_pos rfl]
          exact pqsInsert_lookup_self hW (g p.1) (hg p.1) p.2
        · rw [if_neg hk, pqsInsert_lookup_other hk]
          exact hg k'
      have hmain := ih (pqsInsert obj p.1 p.2)
        (fun k' => if k' = p.1 then g k' ++ [p.2] else g k') hW' hg' k
      rw [hmain]
      by_cases hk : p.1 = k
      · simp [List.filter_cons, hk, List.append_assoc]
      · have hk' : ¬ k = p.1 := fun e => hk e.symm
        simp [List.filter_cons, hk, hk']

/-! `parseQueryString` factors through the decoded pair list. -/

theorem parseQSAux_eq_qsPairsAux (raws : List String) :
    ∀ acc : List (String × String),
      parseQSAux (acc.foldl (fun o p => pqsInsert o p.1 p.2) []) raws
        = (qsPairsAux acc raws).map fun ps => ps.foldl (fun o p => pqsInsert o p.1 p.2) [] := by
  induction raws with
  | nil => intro acc; rfl
  | cons pair rest ih =>
      intro acc
      unfold parseQSAux qsPairsAux
      cases hd : decodePair pair with
      | none => rfl
      | some o =>
          cases o with
          | none => exact ih acc
          | some kv =>
              obtain ⟨k, v⟩ := kv
              have hfold : (acc ++ [(k, v)]).foldl
                    (fun o p => pqsInsert o p.1 p.2) []
                  = pqsInsert (acc.foldl (fun o p => pqsInsert o p.1 p.2) []) k v := by
                simp [List.foldl_append]
              rw [show (match (some (some (k, v)) : Option (Option (String × String))) with
                    | none => (none : Option Obj)
                    | some none => parseQSAux (acc.foldl (fun o p => pqsInsert o p.1 p.2) []) rest
                    | some (some (k, v)) =>
                        parseQSAux (pqsInsert (acc.foldl (fun o p => pqsInsert o p.1 p.2) []) k v) rest)
                  = parseQSAux (pqsInsert (acc.foldl (fun o p => pqsInsert o p.1 p.2) []) k v) rest
                  from rfl]
              rw [← hfold]
              exact ih (acc ++ [(k, v)])

theorem parseQueryString_eq_qsPairs (qs : String) :
    parseQueryString qs
      = (qsPairs qs).map fun ps => ps.foldl (fun o p => pqsInsert o p.1 p.2) [] := by
  simpa [parseQueryString, qsPairs] using parseQSAux_eq_qsPairsAux (jsSplit qs "&") []

/-! Lookup is stable under key-order permutation of an object with distinct
keys. -/

theorem lookupVal_perm {l l' : Obj} (h : l.Perm l')
    (hnd : (l.map Prod.fst).Nodup) (k : String) :
    lookupVal l k = lookupVal l' k := by
  induction h with
  | nil => rfl
  | cons p h ih =>
      rw [List.map_cons, List.nodup_cons] at hnd
      by_cases hp : p.1 = k
      · simp [lookupVal, hp]
      · simp [lookupVal, hp, ih hnd.2]
  | swap p q l =>
      rw [List.map_cons, List.map_cons, List.nodup_cons] at hnd
      have hq : q.1 ∉ p.1 :: List.map Prod.fst l := hnd.1
      have hqp : q.1 ≠ p.1 := fun e => hq (by simp [e])
      by_cases hp : p.1 = k
      · have : q.1 ≠ k := hp ▸ hqp
        simp [lookupVal, hp, this]
      · by_cases hq' : q.1 = k
        · simp [lookupVal, hp, hq']
        · simp [lookupVal, hp, hq']
  | trans h1 h2 ih1 ih2 =>
      have hnd2 : _ := ((h1.map Prod.fst).nodup_iff).mp hnd
      exact (ih1 hnd).trans (ih2 hnd2)

/-! Lemmas about step 2 (`extractFieldOrder`). -/

theorem extractFieldOrder_truthy {data : JSValue} {s : String}
    (hget : jsGet data "_field_order" = .vStr s) (hs : s ≠ "") :
    extractFieldOrder data = (parseFieldOrder s, jsDelete data "_field_order") := by
  unfold extractFieldOrder
  rw [hget]
  simp [jsTruthy, hs, jsToString]

theorem extractFieldOrder_falsy {data : JSValue}
    (h : jsTruthy (jsGet data "_field_order") = false) :
    extractFieldOrder data = (jsKeys data, data) := by
  unfold extractFieldOrder
  simp [h]

theorem jsGet_non_obj_field_order (data : JSValue)
    (h : ∀ l : Obj, data ≠ .vObj l) : jsGet data "_field_order" = .vUndefined := by
  cases data with
  | vObj l => exact absurd rfl (h l)
  | vNull => rfl
  | vUndefined => rfl
  | vBool b => rfl
  | vNum x => rfl
  | vStr s => rfl
  | vArr a => rfl

theorem jsGet_truthy_field_order {data : JSValue}
    (h : jsTruthy (jsGet data "_field_order") = true) :
    extractFieldOrder data
      = (parseFieldOrder (jsToString (jsGet data "_field_order")),
         jsDelete data "_field_order") := by
  unfold extractFieldOrder
  simp [h]

/-! Lemmas about the `e.parameter` copy loop. -/

theorem objSet_eq_append_of_not_mem {l : Obj} {k : String}
    (h : k ∉ l.map Prod.fst) (v : JSValue) : objSet l k v = l ++ [(k, v)] := by
  induction l with
  | nil => rfl
  | cons p rest ih =>
      simp only [List.map_cons, List.mem_cons, not_or] at h
      have hp : p.1 ≠ k := Ne.symm h.1
      simp [objSet, hp, ih h.2]

theorem foldl_objSet_fresh (l : List (String × JSValue)) :
    ∀ acc : Obj, (∀ p ∈ l, p.1 ∉ acc.map Prod.fst) → (l.map Prod.fst).Nodup →
      l.foldl (fun o p => objSet o p.1 (firstIfArray p.2)) acc
        = acc ++ l.map fun p => (p.1, firstIfArray p.2) := by
  induction l with
  | nil => intro acc _ _; simp
  | cons p rest ih =>
      intro acc hfresh hnd
      rw [List.map_cons, List.nodup_cons] at hnd
      simp only [List.foldl_cons]
      rw [objSet_eq_append_of_not_mem (hfresh p (List.mem_cons_self _ _)) _]
      have hfresh' : ∀ q ∈ rest, q.1 ∉ (acc ++ [(p.1, firstIfArray p.2)]).map Prod.fst := by
        intro q hq
        simp only [List.map_append, List.mem_append, not_or]
        refine ⟨hfresh q (List.mem_cons_of_mem _ hq), ?_⟩
        intro hq'
        simp only [List.map_cons, List.map_nil, List.mem_singleton] at hq'
        exact hnd.1 (hq' ▸ List.mem_map_of_mem Prod.fst hq)
      rw [ih (acc ++ [(p.1, firstIfArray p.2)]) hfresh' hnd.2]
      simp

/-! Normal form of one persist step. -/

theorem persistSheet_eq (s : Sheet) (headers row : List String) :
    persistSheet s headers row
      = { numCols := if s.numCols < headers.length then headers.length else s.numCols,
          rows := setRow1 s.rows headers ++ [row] } := by
  by_cases h : s.numCols < headers.length
  · simp only [persistSheet, if_pos h]
    congr 1
    omega
  · simp [persistSheet, if_neg h]

/-! Indexing lemma used for the row-position claim. -/

theorem map_getD_of_lt (l : List String) (f : String → String) :
    ∀ (i : Nat), i < l.length → ∀ (d d' : String),
      (l.map f).getD i d' = f (l.getD i d) := by
  induction l with
  | nil => intro i hi; exact absurd hi (by simp)
  | cons a l ih =>
      intro i hi d d'
      cases i with
      | zero => simp
      | succ n =>
          simp only [List.map_cons, List.getD_cons_succ]
          exact ih n (by simpa using hi) d d'

theorem jsElemStrings_map_vStr (ss : List String) :
    jsElemStrings (ss.map .vStr) = ss := by
  induction ss with
  | nil => rfl
  | cons a l ih => simp [jsElemStrings, jsToString, ih]

theorem getD_append_length {α} (l : List α) (x : α) (d : α) :
    (l ++ [x]).getD l.length d = x := by
  induction l with
  | nil => rfl
  | cons a t ih => simp [ih]

/-!
## The claims

Each claim of the specification is settled by one theorem below, with a
witness instantiating it when it carries hypotheses, and a counterexample
when the claim as stated fails on the code.
-/

/-- Request whose raw urlencoded body carries an *empty* order hint
(`_field_order=`). -/
def reqEmptyHint : Request :=
  { postData := some { type := some "application/x-www-form-urlencoded", contents := some "Name=John&_field_order=" },
    parameter := none }

/-- C1 counterexample: for the parsed body of
`Name=John&_field_order=`, the order-hint value `""` is falsy, so `doPost`
takes the `Object.keys` fallback without deleting `_field_order`, and the
produced header contains `_field_order` as a label (with its value `""` in
the row).  This refutes "the order-hint field never appears as a label in
the produced header nor contributes a value to the produced row". -/
theorem orderHint_leaks_on_empty_hint :
    computeRecord reqEmptyHint "2024-01-01T00:00:00.000Z"
      = .ok (["Timestamp", "Name", "_field_order"],
             ["2024-01-01T00:00:00.000Z", "John", ""])
    ∧ "_field_order" ∈ ["Timestamp", "Name", "_field_order"] :=
  ⟨rfl, by decide⟩

/-- C1 (amended): for every parsed request body whose order-hint key is
absent, or whose order-hint value is truthy with a parsed label list not
containing `_field_order` itself, the field `_field_order` appears nowhere
in the produced header, its value is unreadable from the data the row is
built from, and every row cell beyond the timestamp is the normalized value
of a header label.  (When the order-hint key is present with a falsy value
such as the empty string, the fallback key-order path includes
`_field_order` as an ordinary column — see the counterexample.) -/
theorem orderHint_never_in_output (data : JSValue) (now : String)
    (hwf : dataKeysNodup data)
    (h : "_field_order" ∉ jsKeys data ∨
      (jsTruthy (jsGet data "_field_order") = true ∧
        "_field_order" ∉ parseFieldOrder (jsToString (jsGet data "_field_order")))) :
    "_field_order" ∉ (recordOf data now).1 ∧
    jsGet (extractFieldOrder data).2 "_field_order" = .vUndefined ∧
    (recordOf data now).2
      = now :: (extractFieldOrder data).1.map
          (fun k => normalizeValue (jsGet (extractFieldOrder data).2 k)) := by
  rcases h with habs | ⟨htru, hlab⟩
  · have hget : jsGet data "_field_order" = .vUndefined := by
      cases data with
      | vObj l => exact lookupVal_eq_vUndefined_of_not_mem (by simpa [jsKeys] using habs)
      | vNull => rfl
      | vUndefined => rfl
      | vBool b => rfl
      | vNum x => rfl
      | vStr s => rfl
      | vArr a => rfl
    have hfalsy : jsTruthy (jsGet data "_field_order") = false := by rw [hget]; rfl
    have hE := extractFieldOrder_falsy hfalsy
    refine ⟨?_, ?_, rfl⟩
    · intro hmem
      simp only [recordOf, hE, buildHeader, List.mem_cons] at hmem
      rcases hmem with hmem | hmem
      · exact absurd hmem (by decide)
      · exact habs hmem
    · rw [hE]
      exact hget
  · have hE := jsGet_truthy_field_order htru
    refine ⟨?_, ?_, rfl⟩
    · intro hmem
      simp only [recordOf, hE, buildHeader, List.mem_cons] at hmem
      rcases hmem with hmem | hmem
      · exact absurd hmem (by decide)
      · exact hlab hmem
    · rw [hE]
      cases data with
      | vObj l =>
          simp only [jsDelete, jsGet]
          exact lookupVal_objDelete_self (by simpa [dataKeysNodup] using hwf)
      | vNull => exact Bool.noConfusion htru
      | vUndefined => exact Bool.noConfusion htru
      | vBool b => exact absurd htru (by simp [jsGet, jsTruthy])
      | vNum x => exact Bool.noConfusion htru
      | vStr s => exact Bool.noConfusion htru
      | vArr a => exact Bool.noConfusion htru

/-- Data for the C1 witness: a mapping with no order hint at all. -/
def dataNoHint : JSValue := .vObj [("Name", .vStr "John")]

/-- C1 witness at a concrete mapping without a hint. -/
theorem orderHint_never_in_output_witness :
    "_field_order" ∉ (recordOf dataNoHint "TS").1 ∧
    jsGet (extractFieldOrder dataNoHint).2 "_field_order" = .vUndefined ∧
    (recordOf dataNoHint "TS").2
      = "TS" :: (extractFieldOrder dataNoHint).1.map
          (fun k => normalizeValue (jsGet (extractFieldOrder dataNoHint).2 k)) :=
  orderHint_never_in_output dataNoHint "TS" (by simp [dataKeysNodup, dataNoHint])
    (Or.inl (by decide))

/-- Mapping whose order-hint value is the empty string. -/
def dataEmptyHint : Obj := [("A", .vStr "x"), ("_field_order", .vStr "")]

/-- C2 counterexample: for the mapping `{A: "x", _field_order: ""}` the
order hint, split on `|||`, trimmed and with empty labels dropped, lists
zero labels, so the claim predicts the header `["Timestamp"]`; the code's
falsiness check instead takes the key-order fallback and produces
`["Timestamp", "A", "_field_order"]`. -/
theorem header_not_hint_driven_on_empty_hint :
    (recordOf (.vObj dataEmptyHint) "TS").1 = ["Timestamp", "A", "_field_order"] ∧
    parseFieldOrder "" = [] ∧
    (recordOf (.vObj dataEmptyHint) "TS").1 ≠ ["Timestamp"] :=
  ⟨rfl, rfl, by decide⟩

/-- C2 (amended): for every incoming mapping whose order-hint field is a
*non-empty* string parsing (split on `|||`, trim, drop empties) to labels
L1..Ln, the produced header is exactly `["Timestamp", L1, ..., Ln]`, and —
key order being irrelevant — any permutation of a duplicate-free mapping
produces that same header. -/
theorem header_from_nonempty_hint (l : Obj) (s : String) (now : String)
    (hget : lookupVal l "_field_order" = .vStr s) (hs : s ≠ "") :
    (recordOf (.vObj l) now).1 = "Timestamp" :: parseFieldOrder s ∧
    (∀ l' : Obj, l.Perm l' → (l.map Prod.fst).Nodup →
      (recordOf (.vObj l') now).1 = "Timestamp" :: parseFieldOrder s) := by
  have main : ∀ m : Obj, lookupVal m "_field_order" = .vStr s →
      (recordOf (.vObj m) now).1 = "Timestamp" :: parseFieldOrder s := by
    intro m hm
    have htru : jsTruthy (jsGet (.vObj m) "_field_order") = true := by
      simp [jsGet, hm, jsTruthy, hs]
    have hE := jsGet_truthy_field_order htru
    simp [recordOf, hE, buildHeader, jsGet, hm, jsToString]
  refine ⟨main l hget, fun l' hperm hnd => main l' ?_⟩
  rw [← lookupVal_perm hperm hnd]
  exact hget

/-- C2 witness at a concrete two-field mapping. -/
theorem header_from_nonempty_hint_witness :
    (recordOf (.vObj [("Name", JSValue.vStr "x"), ("_field_order", JSValue.vStr "Name")]) "TS").1
      = "Timestamp" :: parseFieldOrder "Name" :=
  (header_from_nonempty_hint
    [("Name", JSValue.vStr "x"), ("_field_order", JSValue.vStr "Name")]
    "Name" "TS" rfl (by decide)).1

/-- The raw urlencoded round-trip request of C3: no JSON content type and
no pre-parsed parameters, so the body is decoded by `parseQueryString`. -/
def reqRoundTrip : Request :=
  { postData := some { type := some "application/x-www-form-urlencoded", contents := some "Name=John+Doe&Email=john%40example.com&_field_order=Name|||Email" },
    parameter := none }

/-- C3: submitting the raw body
`Name=John+Doe&Email=john%40example.com&_field_order=Name|||Email` produces
header `["Timestamp", "Name", "Email"]` and row
`[<timestamp>, "John Doe", "john@example.com"]`, for any timestamp. -/
theorem roundtrip_urlencoded (now : String) :
    computeRecord reqRoundTrip now
      = .ok (["Timestamp", "Name", "Email"], [now, "John Doe", "john@example.com"]) :=
  rfl

/-- C4: the row has exactly one cell per ordered label after the timestamp;
the cell at a label's position is the normalized value the data holds for
that label; a label absent from a mapping reads as `undefined`; and
normalization sends `null`/`undefined` to the empty string, a list of
strings to its `", "`-join, and everything else to its string conversion —
so a missing label yields an empty cell, never an omitted column. -/
theorem row_value_at_label (now : String) (data : JSValue) (fo : List String)
    (i : Nat) (hi : i < fo.length) :
    (buildRow now data fo).length = fo.length + 1 ∧
    (buildRow now data fo).getD (i + 1) "" = normalizeValue (jsGet data (fo.getD i "")) ∧
    (∀ (l : Obj) (k : String), k ∉ l.map Prod.fst → jsGet (.vObj l) k = .vUndefined) ∧
    normalizeValue .vUndefined = "" ∧
    normalizeValue .vNull = "" ∧
    (∀ ss : List String, normalizeValue (.vArr (ss.map .vStr)) = String.intercalate ", " ss) ∧
    (∀ v : JSValue, v ≠ .vNull → v ≠ .vUndefined → (∀ a, v ≠ .vArr a) →
      normalizeValue v = jsToString v) := by
  refine ⟨by simp [buildRow], ?_, ?_, rfl, rfl, ?_, ?_⟩
  · simp only [buildRow, List.getD_cons_succ]
    exact map_getD_of_lt fo _ i hi "" ""
  · intro l k hk
    simpa [jsGet] using lookupVal_eq_vUndefined_of_not_mem hk
  · intro ss
    simp [normalizeValue, jsElemStrings_map_vStr]
  · intro v h1 h2 h3
    cases v with
    | vNull => exact absurd rfl h1
    | vUndefined => exact absurd rfl h2
    | vArr a => exact absurd rfl (h3 a)
    | vBool b => rfl
    | vNum x => rfl
    | vStr s => rfl
    | vObj l => rfl

/-- C4 witness: the second label of `["A", "B"]` is absent from the
mapping, and its cell is the empty string at position 2 of the row. -/
theorem row_value_at_label_witness :
    (buildRow "TS" (JSValue.vObj [("A", JSValue.vStr "x")]) ["A", "B"]).length = 3 ∧
    (buildRow "TS" (JSValue.vObj [("A", JSValue.vStr "x")]) ["A", "B"]).getD 2 ""
      = normalizeValue (jsGet (JSValue.vObj [("A", JSValue.vStr "x")]) "B") :=
  ⟨(row_value_at_label "TS" (JSValue.vObj [("A", JSValue.vStr "x")]) ["A", "B"] 1 (by decide)).1,
   (row_value_at_label "TS" (JSValue.vObj [("A", JSValue.vStr "x")]) ["A", "B"] 1 (by decide)).2.1⟩

/-- C5: when the content type indicates JSON but the body does not parse as
JSON, no fault is raised by parsing — the mapping degrades to the empty
object, the produced header is exactly `["Timestamp"]` and the row carries
only the timestamp. -/
theorem malformed_json_degrades (e : Request) (now : String)
    (hct : contentTypeIsJson e = true)
    (hbad : jsonParse (rawContents e) = none) :
    buildData e = .ok (.vObj []) ∧
    computeRecord e now = .ok (["Timestamp"], [now]) := by
  have hbody : buildData e = .ok (.vObj []) := by
    unfold buildData
    rw [if_pos hct]
    by_cases hc : rawContents e = ""
    · rw [hc]
      rfl
    · simp only [if_neg hc, hbad]
  refine ⟨hbody, ?_⟩
  unfold computeRecord
  rw [hbody]
  rfl

/-- Request with JSON content type and the malformed body `{`. -/
def reqBadJson : Request :=
  { postData := some { type := some "application/json", contents := some "\x7b" },
    parameter := none }

/-- C5 witness at the body `{`. -/
theorem malformed_json_degrades_witness :
    buildData reqBadJson = .ok (.vObj []) ∧
    computeRecord reqBadJson "TS" = .ok (["Timestamp"], ["TS"]) :=
  malformed_json_degrades reqBadJson "TS" rfl rfl

/-- C6: body parsing tries exactly three forms in priority order.
(a) A JSON content type always takes the JSON branch, yielding the parsed
body (the `|| '{}'` default for an empty one) or the empty object on parse
failure, regardless of any parameters.  (b) Otherwise non-empty pre-parsed
parameters are copied, a multi-valued (array) field keeping only its first
value.  (c) Otherwise the raw body is decoded by `parseQueryString`, whose
result accumulates repeated keys into a single value: the decoded pairs in
occurrence order give, per key, nothing / the bare string / the array of
all values in order. -/
theorem doPost_parse_priority :
    (∀ e : Request, contentTypeIsJson e = true →
      buildData e = .ok ((jsonParse
        (if rawContents e = "" then "\x7b\x7d" else rawContents e)).getD (.vObj []))) ∧
    (∀ (e : Request) (l : List (String × JSValue)), contentTypeIsJson e = false →
      e.parameter = some l → l ≠ [] → buildData e = .ok (.vObj (paramData l))) ∧
    (∀ l : List (String × JSValue), (l.map Prod.fst).Nodup →
      paramData l = l.map fun p => (p.1, firstIfArray p.2)) ∧
    (∀ (v : JSValue) (vs : List JSValue), firstIfArray (.vArr (v :: vs)) = v) ∧
    (∀ e : Request, contentTypeIsJson e = false →
      (e.parameter = none ∨ e.parameter = some []) → buildData e = rawBodyData e) ∧
    (∀ (e : Request) (pd : PostData) (c : String), e.postData = some pd →
      pd.contents = some c → c ≠ "" →
      rawBodyData e = (match parseQueryString c with
        | some obj => .ok (.vObj obj)
        | none => .error "URI malformed")) ∧
    (∀ qs : String, parseQueryString qs
      = (qsPairs qs).map fun ps => ps.foldl (fun o p => pqsInsert o p.1 p.2) []) ∧
    (∀ (ps : List (String × String)) (k : String),
      lookupVal (ps.foldl (fun o p => pqsInsert o p.1 p.2) []) k
        = encodeVals ((ps.filter fun p => p.1 == k).map Prod.snd)) := by
  refine ⟨?_, ?_, ?_, ?_, ?_, ?_, ?_, ?_⟩
  · intro e h
    unfold buildData
    rw [if_pos h]
    cases hj : jsonParse (if rawContents e = "" then "\x7b\x7d" else rawContents e) <;>
      simp [hj]
  · intro e l h hp hne
    cases l with
    | nil => exact absurd rfl hne
    | cons a t =>
        unfold buildData
        rw [if_neg (by simp [h]), hp]
  · intro l hnd
    simpa [paramData] using foldl_objSet_fresh l [] (by simp) hnd
  · intro v vs
    rfl
  · intro e h hp
    unfold buildData
    rw [if_neg (by simp [h])]
    rcases hp with hp | hp <;> rw [hp]
  · intro e pd c h1 h2 h3
    unfold rawBodyData
    simp only [h1, h2, if_neg h3]
  · exact parseQueryString_eq_qsPairs
  · intro ps k
    have := foldl_pqsInsert_lookup ps [] (fun _ => [])
      (fun p hp => absurd hp (List.not_mem_nil p)) (fun _ => rfl) k
    simpa using this

/-- Request with a JSON body and (ignored) parameters, for the priority
witness. -/
def reqJsonW : Request :=
  { postData := some { type := some "application/json", contents := some "\x7b\"a\":\"b\"\x7d" },
    parameter := some [("ignored", .vStr "x")] }

/-- Request with parameters (one of them array-valued) and an (ignored)
raw body. -/
def reqParamW : Request :=
  { postData := some { type := some "text/plain", contents := some "zzz=1" },
    parameter := some [("k", .vArr [.vStr "v1", .vStr "v2"])] }

/-- Request with only a raw body, with one key repeated three times. -/
def reqRawW : Request :=
  { postData := some { type := some "application/x-www-form-urlencoded", contents := some "k=1&k=2&k=3" },
    parameter := none }

/-- C6 witness: the three branches at concrete requests — JSON wins over
parameters, the array-valued parameter keeps its first value, and the raw
body accumulates the repeated key into an array. -/
theorem doPost_parse_priority_witness :
    buildData reqJsonW = .ok (.vObj [("a", .vStr "b")]) ∧
    buildData reqParamW = .ok (.vObj [("k", .vStr "v1")]) ∧
    buildData reqRawW
      = .ok (.vObj [("k", .vArr [.vStr "1", .vStr "2", .vStr "3"])]) := by
  refine ⟨?_, ?_, ?_⟩
  · exact doPost_parse_priority.1 reqJsonW rfl
  · exact doPost_parse_priority.2.1 reqParamW [("k", .vArr [.vStr "v1", .vStr "v2"])]
      rfl rfl (List.cons_ne_nil _ _)
  · exact doPost_parse_priority.2.2.2.2.1 reqRawW rfl (Or.inl rfl)

/-- C7: the receiver always answers with a JSON status object, and the
success/error split mirrors exactly whether any step threw: `success` iff
parsing, persistence and notification all went through; otherwise `error`
carrying the first thrown exception's message — nothing propagates
unhandled. -/
theorem doPost_status_response (env : Env) (e : Request) :
    ((doPost env e).resp = .success ↔
      (∃ hr, computeRecord e env.now = .ok hr) ∧
        env.sheetOpenFail = none ∧ env.mailFail = none) ∧
    (∀ m, computeRecord e env.now = .error m → (doPost env e).resp = .error m) ∧
    (∀ m hr, computeRecord e env.now = .ok hr → env.sheetOpenFail = some m →
      (doPost env e).resp = .error m) ∧
    (∀ m hr, computeRecord e env.now = .ok hr → env.sheetOpenFail = none →
      env.mailFail = some m → (doPost env e).resp = .error m) := by
  cases hrec : computeRecord e env.now with
  | error m =>
      refine ⟨?_, ?_, ?_, ?_⟩
      · simp [doPost, hrec]
      · intro m' hm'
        cases hm'
        simp [doPost, hrec]
      · intro m' hr hm'
        cases hm'
      · intro m' hr hm'
        cases hm'
  | ok hr =>
      cases hopen : env.sheetOpenFail with
      | some m =>
          refine ⟨?_, ?_, ?_, ?_⟩
          · simp [doPost, hrec, hopen]
          · intro m' hm'
            cases hm'
          · intro m' hr' hm' hop
            cases hop
            simp [doPost, hrec, hopen]
          · intro m' hr' _ hop
            cases hop
      | none =>
          cases hmail : env.mailFail with
          | some m =>
              refine ⟨?_, ?_, ?_, ?_⟩
              · simp [doPost, hrec, hopen, hmail]
              · intro m' hm'
                cases hm'
              · intro m' hr' _ hop
                cases hop
              · intro m' hr' _ _ hm'
                cases hm'
                simp [doPost, hrec, hopen, hmail]
          | none =>
              refine ⟨?_, ?_, ?_, ?_⟩
              · simp [doPost, hrec, hopen, hmail]
              · intro m' hm'
                cases hm'
              · intro m' hr' _ hop
                cases hop
              · intro m' hr' _ _ hm'
                cases hm'

/-- The deployed configuration for the C7 witness: a fresh sheet and no
injected failures. -/
def envW : Env :=
  { sheet := { numCols := 0, rows := [] }, emailTo := "you@example.com",
    now := "TS", sheetOpenFail := none, mailFail := none }

/-- A request with no body and no parameters. -/
def reqEmptyW : Request := { postData := none, parameter := none }

/-- C7 witness: a fault-free run answers `success`. -/
theorem doPost_status_response_witness :
    (doPost envW reqEmptyW).resp = .success :=
  (doPost_status_response envW reqEmptyW).1.mpr
    ⟨⟨(["Timestamp"], ["TS"]), rfl⟩, rfl, rfl⟩

/-- Sheet state with three header columns from an earlier, wider
submission. -/
def env8 : Env :=
  { sheet := { numCols := 3, rows := [["Timestamp", "A", "B"], ["t0", "1", "2"]] },
    emailTo := "you@example.com", now := "TS", sheetOpenFail := none, mailFail := none }

/-- Request whose order hint lists only `A`, computing a two-cell header. -/
def req8 : Request :=
  { postData := some { type := some "application/x-www-form-urlencoded", contents := some "A=x&_field_order=A" },
    parameter := none }

/-- C8 counterexample: with an existing wider row 1, a shorter computed
header is written over only its first cells — afterwards row 1 is
`["Timestamp", "A", "B"]`, not the computed header `["Timestamp", "A"]`,
refuting "row 1 is unconditionally overwritten with the computed header". -/
theorem persist_row1_keeps_stale_cells :
    computeRecord req8 "TS" = .ok (["Timestamp", "A"], ["TS", "x"]) ∧
    (doPost env8 req8).sheet.rows.getD 0 [] = ["Timestamp", "A", "B"] ∧
    (["Timestamp", "A", "B"] : List String) ≠ ["Timestamp", "A"] :=
  ⟨rfl, rfl, by decide⟩

/-- C8 (amended): on a successfully processed request the persist step
changes the store as follows and nothing else: the column count is extended
to the header's length when smaller (otherwise unchanged); the *first
header-length cells* of row 1 are overwritten with the computed header,
cells of row 1 beyond the header's length keeping their previous contents;
exactly one new row equal to the computed row is appended at the end; and
every other existing row is unchanged. -/
theorem persist_effects (env : Env) (e : Request) (headers row : List String)
    (hok : computeRecord e env.now = .ok (headers, row))
    (hopen : env.sheetOpenFail = none) (hmail : env.mailFail = none) :
    (doPost env e).sheet = persistSheet env.sheet headers row ∧
    (doPost env e).resp = .success ∧
    (∀ s : Sheet,
      (persistSheet s headers row).numCols
        = (if s.numCols < headers.length then headers.length else s.numCols) ∧
      (persistSheet s headers row).rows = setRow1 s.rows headers ++ [row] ∧
      (persistSheet s headers row).rows.getD 0 []
        = headers ++ (s.rows.getD 0 []).drop headers.length ∧
      (∀ i, 1 ≤ i → i < s.rows.length →
        (persistSheet s headers row).rows.getD i [] = s.rows.getD i []) ∧
      (persistSheet s headers row).rows.getD
          ((persistSheet s headers row).rows.length - 1) [] = row ∧
      (persistSheet s headers row).rows.length
        = (if s.rows.length = 0 then 1 else s.rows.length) + 1) := by
  refine ⟨?_, ?_, ?_⟩
  · simp [doPost, hok, hopen, hmail]
  · simp [doPost, hok, hopen, hmail]
  · intro s
    rw [persistSheet_eq]
    refine ⟨rfl, rfl, ?_, ?_, ?_, ?_⟩
    · cases s.rows with
      | nil => simp [setRow1]
      | cons r0 rest => simp [setRow1]
    · intro i h1 h2
      cases hr : s.rows with
      | nil => rw [hr] at h2; exact absurd h2 (by simp)
      | cons r0 rest =>
          cases i with
          | zero => exact absurd h1 (by omega)
          | succ j =>
              rw [hr] at h2
              simp only [List.length_cons] at h2
              simp only [setRow1, List.cons_append, List.getD_cons_succ]
              rw [List.getD_append]
              omega
    · have hlen : (setRow1 s.rows headers ++ [row]).length - 1
          = (setRow1 s.rows headers).length := by simp
      rw [hlen, getD_append_length]
    · cases s.rows with
      | nil => simp [setRow1]
      | cons r0 rest => simp [setRow1]

/-- C8 witness: the amended persist effects at the concrete C8 scenario. -/
theorem persist_effects_witness :
    (doPost env8 req8).sheet = persistSheet env8.sheet ["Timestamp", "A"] ["TS", "x"] ∧
    (doPost env8 req8).resp = .success :=
  ⟨(persist_effects env8 req8 ["Timestamp", "A"] ["TS", "x"] rfl rfl rfl).1,
   (persist_effects env8 req8 ["Timestamp", "A"] ["TS", "x"] rfl rfl rfl).2.1⟩

/-- C9: on a success response the handler always schedules exactly one
restore within 4000 ms, after which the submit control carries its original
label and is enabled; on an HTTP error or network failure the control shows
`Error`, one blocking alert is surfaced, and the single scheduled restore
fires within 3000 ms, re-enabling the control with its original label. -/
theorem submit_restores_in_time (hasEl : Bool) (outcome : FetchOutcome)
    (st : ClientState) :
    (outcome = .ok →
      ∃ t : TimerEvent, (submitHandler hasEl outcome st).2 = [t] ∧ t.delayMs ≤ 4000 ∧
        (applyTimer t (submitHandler hasEl outcome st).1).btnText = st.btnText ∧
        (applyTimer t (submitHandler hasEl outcome st).1).btnDisabled = false) ∧
    ((outcome = .httpError ∨ outcome = .netError) →
      (submitHandler hasEl outcome st).1.btnText = "Error" ∧
      (submitHandler hasEl outcome st).1.alerts = st.alerts ++ [alertMsg] ∧
      ∃ t : TimerEvent, (submitHandler hasEl outcome st).2 = [t] ∧ t.delayMs ≤ 3000 ∧
        (applyTimer t (submitHandler hasEl outcome st).1).btnText = st.btnText ∧
        (applyTimer t (submitHandler hasEl outcome st).1).btnDisabled = false) := by
  constructor
  · intro h
    subst h
    cases hasEl with
    | true => exact ⟨⟨4000, .restoreSuccess st.btnText⟩, rfl, Nat.le_refl 4000, rfl, rfl⟩
    | false =>
        refine ⟨⟨3000, .restoreError st.btnText⟩, rfl, ?_, rfl, rfl⟩
        show (3000 : Nat) ≤ 4000
        decide
  · intro h
    rcases h with h | h <;> subst h <;>
      exact ⟨rfl, rfl, ⟨3000, .restoreError st.btnText⟩, rfl, Nat.le_refl 3000, rfl, rfl⟩

/-- Idle client state for the client-side witnesses. -/
def stW : ClientState :=
  { btnText := "Send Message", btnDisabled := false, formWasReset := false,
    successVisible := false, alerts := [] }

/-- C9 witness: concrete success and failure submissions from the idle
state. -/
theorem submit_restores_in_time_witness :
    (submitHandler true FetchOutcome.ok stW).2.length = 1 ∧
    (submitHandler true FetchOutcome.httpError stW).1.btnText = "Error" ∧
    (submitHandler true FetchOutcome.httpError stW).1.alerts = stW.alerts ++ [alertMsg] := by
  refine ⟨?_, ?_, ?_⟩
  · obtain ⟨t, ht, -, -, -⟩ := (submit_restores_in_time true FetchOutcome.ok stW).1 rfl
    rw [ht]
    rfl
  · exact ((submit_restores_in_time true FetchOutcome.httpError stW).2 (Or.inl rfl)).1
  · exact ((submit_restores_in_time true FetchOutcome.httpError stW).2 (Or.inl rfl)).2.1

/-- Idle client state for the C10 counterexample. -/
def stC10 : ClientState :=
  { btnText := "Send Message", btnDisabled := false, formWasReset := false,
    successVisible := false, alerts := [] }

/-- C10 counterexample: with the success-indicator element absent and an
HTTP-success response, `contactForm.reset()` has already run when the
`null` element access throws — the form *is* reset, refuting "the form is
not reset". -/
theorem form_reset_before_indicator_throw :
    (submitHandler false FetchOutcome.ok stC10).1.formWasReset = true ∧
    stC10.formWasReset = false ∧
    (submitHandler false FetchOutcome.ok stC10).1.btnText = "Error" :=
  ⟨rfl, rfl, rfl⟩

/-- C10 (amended): if the contact form exists but the success-indicator
element is absent, a submission whose POST returns an HTTP-success response
takes the failure path — but only after the form has been reset (the reset
precedes the throwing element access): the submit control shows the error
label, one blocking alert is surfaced, the success indicator is never
shown, and the single scheduled 3000 ms restore re-enables the control with
its original label; no 4-second success timer is ever scheduled. -/
theorem success_without_indicator_takes_error_path (st : ClientState) :
    (submitHandler false FetchOutcome.ok st).1.formWasReset = true ∧
    (submitHandler false FetchOutcome.ok st).1.btnText = "Error" ∧
    (submitHandler false FetchOutcome.ok st).1.alerts = st.alerts ++ [alertMsg] ∧
    (submitHandler false FetchOutcome.ok st).1.successVisible = st.successVisible ∧
    (submitHandler false FetchOutcome.ok st).2 = [⟨3000, .restoreError st.btnText⟩] ∧
    (applyTimer ⟨3000, .restoreError st.btnText⟩
      (submitHandler false FetchOutcome.ok st).1).btnText = st.btnText ∧
    (applyTimer ⟨3000, .restoreError st.btnText⟩
      (submitHandler false FetchOutcome.ok st).1).btnDisabled = false :=
  ⟨rfl, rfl, rfl, rfl, rfl, rfl, rfl⟩

end FormDoc
